import Mathlib

/-!
# Verification of the ld_proto language-detection example

Shallow embedding of the reference server (examples/server/main.go) and
the third-party batch adapter (examples/third_party_service/main.go).

Modelling conventions:
* Go strings are modelled as `List Char` (a sequence of runes).
* The randomized iteration order of a Go map is modelled by an explicit
  `order : List String` parameter over which the loops fold; a real
  execution uses some permutation of the key set, so theorems quantify
  over `order` (or over permutations where a property needs it).
  Languages absent from the `scores` map have score 0 and are no-ops in
  both loops that iterate it, so folding over any order that contains
  the positive-score keys is faithful to iterating the map itself.
* Go float32 confidence arithmetic is modelled in `ℚ`: the score and the
  word count are exact small integers, float32 division of a nonnegative
  numerator by a positive denominator is nonnegative, and the `> 1.0`
  clamp commutes with the rounding, so every property checked here
  (range bounds, equality with 0, strict positivity, determinism of the
  value) transfers to the float32 computation.
* Go unicode.IsSpace (used by strings.Fields) is modelled exactly on the
  Unicode White_Space code points; strings.ToLower is modelled on its
  Latin-1 restriction, which covers every character appearing in the
  stop-word table and in the scenarios of the claims.
* Wall-clock values (processing time) are explicit parameters.
-/

namespace LdProto

/-- Go unicode.IsSpace: the Unicode White_Space code points. -/
def goIsSpace (c : Char) : Bool :=
  decide ((0x09 ≤ c.toNat ∧ c.toNat ≤ 0x0D) ∨ c.toNat = 0x20 ∨ c.toNat = 0x85 ∨
    c.toNat = 0xA0 ∨ c.toNat = 0x1680 ∨ (0x2000 ≤ c.toNat ∧ c.toNat ≤ 0x200A) ∨
    c.toNat = 0x2028 ∨ c.toNat = 0x2029 ∨ c.toNat = 0x202F ∨ c.toNat = 0x205F ∨
    c.toNat = 0x3000)

/-- Go strings.ToLower restricted to Latin-1: ASCII A–Z, and À–Þ except ×,
map down by 32; every other character is fixed. -/
def goToLower (c : Char) : Char :=
  if 0x41 ≤ c.toNat ∧ c.toNat ≤ 0x5A then Char.ofNat (c.toNat + 32)
  else if (0xC0 ≤ c.toNat ∧ c.toNat ≤ 0xDE) ∧ c.toNat ≠ 0xD7 then Char.ofNat (c.toNat + 32)
  else c

/-- Go strings.Fields: split around runs of whitespace, producing no empty
fields. `acc` is the reversed current field being accumulated. -/
def fieldsAux : List Char → List Char → List (List Char)
  | [], acc => if acc = [] then [] else [acc.reverse]
  | c :: rest, acc =>
    if goIsSpace c then
      if acc = [] then fieldsAux rest [] else acc.reverse :: fieldsAux rest []
    else fieldsAux rest (c :: acc)

/-- Word list scored by the detector: strings.Fields(strings.ToLower(text))
(main.go lines 16 and 30). -/
def goWords (text : List Char) : List (List Char) :=
  fieldsAux (text.map goToLower) []

/-- Stop-word table languageWords of main.go lines 19–25, as the
(key, value) entries of the Go map literal. The entry for fr contains
the word et twice, exactly as in the source. -/
def languageWords : List (String × List (List Char)) :=
  [ ("en", ["the","and","is","in","to","of","a","that","it","with"].map String.toList)
  , ("es", ["el","la","de","que","y","a","en","un","es","se"].map String.toList)
  , ("fr", ["le","de","et","à","un","il","être","et","en","avoir"].map String.toList)
  , ("de", ["der","die","und","in","den","von","zu","das","mit","sich"].map String.toList)
  , ("it", ["il","di","che","e","la","per","un","in","con","da"].map String.toList) ]

/-- Key set of the stop-word table. -/
def langCodes : List String := ["en","es","fr","de","it"]

/-- Lookup of languageWords[lang]; the empty list if the key is absent. -/
def langWords (lang : String) : List (List Char) :=
  ((languageWords.find? (fun e => e.1 == lang)).map (fun e => e.2)).getD []

/-- Value of scores[lang] after the scoring loop of main.go lines 30–40:
for each word of the text, one increment per equal entry of
languageWords[lang] (so the duplicated et in fr counts twice). -/
def score (ws : List (List Char)) (lang : String) : Nat :=
  (ws.map (fun w => (langWords lang).count w)).sum

/-- Find-best loop of main.go lines 46–54: fold over the score map in
iteration order `order`, starting from the default pair of en and 0,
replacing the running best exactly on a strictly greater score. -/
def findBest (order : List String) (ws : List (List Char)) : String × Nat :=
  order.foldl (fun b lang => if score ws lang > b.2 then (lang, score ws lang) else b)
    ("en", 0)

/-- Confidence clamp of main.go lines 57–59 and 66–68. -/
def clamp1 (q : ℚ) : ℚ := if q > 1 then 1 else q

/-- Alternatives loop of main.go lines 62–74: every non-best language with
positive score, with its own clamped confidence, in iteration order. -/
def alternativesOf (order : List String) (ws : List (List Char)) (bestLang : String)
    (totalWords : Nat) : List (String × ℚ) :=
  order.filterMap (fun lang =>
    if lang ≠ bestLang ∧ 0 < score ws lang then
      some (lang, clamp1 ((score ws lang : ℚ) / (totalWords : ℚ)))
    else none)

/-- Model of detectLanguage (main.go lines 15–77), parametrized by the map
iteration order. Returns (languageCode, confidence, alternatives); the Go
nil alternatives slice is the empty list. -/
def detectLanguage (order : List String) (text : List Char) :
    String × ℚ × List (String × ℚ) :=
  let ws := goWords text
  let totalWords := ws.length
  if totalWords = 0 then ("unknown", 0, [])
  else
    let best := findBest order ws
    (best.1, clamp1 ((best.2 : ℚ) / (totalWords : ℚ)),
      alternativesOf order ws best.1 totalWords)

/-- Wire shape of pb.DetectLanguageRequest. -/
structure DetectLanguageRequest where
  text : List Char
  documentId : String
  metadata : List (String × String)

/-- Wire shape of pb.LanguageAlternative. -/
structure LanguageAlternative where
  languageCode : String
  confidence : ℚ

/-- Wire shape of pb.ProcessingMetadata. -/
structure ProcessingMetadata where
  processingTimeMs : Int
  serviceVersion : String
  modelVersion : String
  provider : String

/-- Wire shape of pb.DetectLanguageResponse. -/
structure DetectLanguageResponse where
  languageCode : String
  confidence : ℚ
  alternatives : List LanguageAlternative
  documentId : String
  metadata : Option ProcessingMetadata

/-- Model of the server handler DetectLanguage (main.go lines 83–103).
The measured wall-clock processing time is the parameter `procMs`.
The Go return pair (pointer, error) is modelled as a pair of options:
the handler builds a response and returns a nil error unconditionally. -/
def serverDetectLanguage (order : List String) (procMs : Int)
    (req : DetectLanguageRequest) : Option DetectLanguageResponse × Option String :=
  let r := detectLanguage order req.text
  (some { languageCode := r.1
        , confidence := r.2.1
        , alternatives := r.2.2.map (fun a => ⟨a.1, a.2⟩)
        , documentId := req.documentId
        , metadata := some ⟨procMs, "1.0.0", "simple-word-based-v1.0", "ld_proto_example"⟩ },
   none)

/-- Input document of the third-party adapter
(third_party_service/main.go lines 110–114). -/
structure Document where
  id : String
  content : List Char
deriving DecidableEq

/-- Processed-document record of the third-party adapter
(third_party_service/main.go lines 74–86); the wall-clock ProcessedAt
field is not modelled. -/
structure DocumentInfo where
  id : String
  content : List Char
  language : String
  confidence : ℚ
  alternatives : List (String × ℚ)
  processingTimeMs : Int
  serviceVersion : String
  modelVersion : String
  provider : String

/-- Model of BatchProcessDocuments (third_party_service/main.go lines
95–108). The per-item call s.ProcessDocument performs an RPC whose outcome
is external input, modelled by the oracle `process`; the loop appends the
result on success and just continues (after logging) on error, and the
function returns the collected results with a nil error. -/
def batchProcessDocuments (process : Document → Except String DocumentInfo)
    (documents : List Document) : List DocumentInfo × Option String :=
  (documents.foldl (fun results doc =>
    match process doc with
    | Except.ok docInfo => results ++ [docInfo]
    | Except.error _ => results) [], none)

/-- Concrete input of claim scenarios: the hello-world text. -/
def helloWorldText : List Char := "Hello, world!".toList

/-- Concrete text whose words tie between en and es (one stop-word each). -/
def theElText : List Char := "the el".toList

/-- Concrete whitespace-only text. -/
def wsOnlyText : List Char := [' ', '\t']

/-- Concrete text with words but no stop-word match in any language. -/
def noMatchText : List Char := "xyz qqq".toList

/-- Concrete one-word text: the word a is a stop-word of both en and es. -/
def singleAText : List Char := ['a']

/-- A second iteration order of the score map, listing es before en. -/
def esFirstOrder : List String := ["es","en","fr","de","it"]

/-- Concrete oracle result for the batch witness. -/
def exDocumentInfo (d : Document) : DocumentInfo :=
  { id := d.id, content := d.content, language := "en", confidence := 1,
    alternatives := [], processingTimeMs := 0, serviceVersion := "1.0.0",
    modelVersion := "simple-word-based-v1.0", provider := "ld_proto_example" }

/-- Error message of the failing item in the batch witness. -/
def transientMsg : String := "transient failure"

/-- Concrete batch oracle: the RPC fails for document doc-003 and succeeds
for every other document. -/
def exProcess (d : Document) : Except String DocumentInfo :=
  if d.id = "doc-003" then Except.error transientMsg else Except.ok (exDocumentInfo d)

/-- Concrete batch of four documents, the second of which fails. -/
def exDocs : List Document :=
  [⟨"doc-002", []⟩, ⟨"doc-003", []⟩, ⟨"doc-004", []⟩, ⟨"doc-005", []⟩]

/-! ## Helper lemmas -/

/-- Unfolding equation for `detectLanguage`. -/
lemma detectLanguage_eq (order : List String) (text : List Char) :
    detectLanguage order text =
      if (goWords text).length = 0 then ("unknown", 0, [])
      else ((findBest order (goWords text)).1,
        clamp1 (((findBest order (goWords text)).2 : ℚ) / ((goWords text).length : ℚ)),
        alternativesOf order (goWords text) (findBest order (goWords text)).1
          (goWords text).length) := rfl

lemma clamp1_le_one (q : ℚ) : clamp1 q ≤ 1 := by
  unfold clamp1
  by_cases h : q > 1
  · rw [if_pos h]
  · rw [if_neg h]
    exact le_of_not_lt h

lemma clamp1_nonneg {q : ℚ} (h : 0 ≤ q) : 0 ≤ clamp1 q := by
  unfold clamp1
  by_cases h1 : q > 1
  · rw [if_pos h1]
    exact zero_le_one
  · rw [if_neg h1]
    exact h

lemma clamp1_zero : clamp1 0 = 0 := by
  unfold clamp1
  norm_num

/-- Every key of the stop-word table is one of the five language codes. -/
lemma keys_mem_langCodes : ∀ e ∈ languageWords, e.1 ∈ langCodes := by decide

lemma langWords_eq_nil {lang : String} (h : lang ∉ langCodes) : langWords lang = [] := by
  unfold langWords
  cases hf : languageWords.find? (fun e => e.1 == lang) with
  | none => rfl
  | some e =>
    exfalso
    have he : e ∈ languageWords := List.mem_of_find?_eq_some hf
    have heq : e.1 = lang := by
      have := List.find?_some hf
      simpa using this
    exact h (heq ▸ keys_mem_langCodes e he)

lemma score_eq_zero_of_not_mem {lang : String} (h : lang ∉ langCodes)
    (ws : List (List Char)) : score ws lang = 0 := by
  unfold score
  rw [langWords_eq_nil h]
  simp

lemma mem_langCodes_of_score_pos {ws : List (List Char)} {lang : String}
    (h : 0 < score ws lang) : lang ∈ langCodes := by
  by_contra hmem
  rw [score_eq_zero_of_not_mem hmem ws] at h
  exact Nat.lt_irrefl 0 h

lemma langWords_count_eq_zero {w : List Char}
    (h : ∀ e ∈ languageWords, e.2.count w = 0) (lang : String) :
    (langWords lang).count w = 0 := by
  unfold langWords
  cases hf : languageWords.find? (fun e => e.1 == lang) with
  | none => rfl
  | some e => simpa using h e (List.mem_of_find?_eq_some hf)

lemma score_eq_zero {ws : List (List Char)}
    (h : ∀ w ∈ ws, ∀ e ∈ languageWords, e.2.count w = 0) (lang : String) :
    score ws lang = 0 := by
  unfold score
  apply List.sum_eq_zero
  intro x hx
  rw [List.mem_map] at hx
  obtain ⟨w, hw, rfl⟩ := hx
  exact langWords_count_eq_zero (h w hw) lang

/-- The find-best fold either keeps the initial pair or lands on a language
with a strictly positive score. -/
lemma foldl_findBest_fst (ws : List (List Char)) :
    ∀ (order : List String) (b : String × Nat),
      (order.foldl (fun b lang => if score ws lang > b.2 then (lang, score ws lang) else b) b).1
          = b.1
      ∨ 0 < score ws
          (order.foldl (fun b lang => if score ws lang > b.2 then (lang, score ws lang) else b) b).1 := by
  intro order
  induction order with
  | nil => intro b; left; rfl
  | cons a t ih =>
    intro b
    simp only [List.foldl_cons]
    by_cases hc : score ws a > b.2
    · rw [if_pos hc]
      rcases ih (a, score ws a) with h | h
      · right
        rw [h]
        exact Nat.lt_of_le_of_lt (Nat.zero_le b.2) hc
      · right
        exact h
    · rw [if_neg hc]
      exact ih b

lemma findBest_fst_cases (order : List String) (ws : List (List Char)) :
    (findBest order ws).1 = "en" ∨ 0 < score ws (findBest order ws).1 :=
  foldl_findBest_fst ws order ("en", 0)

/-- The second component of the find-best fold is the running maximum of
the scores seen. -/
lemma foldl_findBest_snd (ws : List (List Char)) :
    ∀ (order : List String) (b : String × Nat),
      (order.foldl (fun b lang => if score ws lang > b.2 then (lang, score ws lang) else b) b).2
        = order.foldl (fun n lang => max n (score ws lang)) b.2 := by
  intro order
  induction order with
  | nil => intro b; rfl
  | cons a t ih =>
    intro b
    simp only [List.foldl_cons]
    rw [ih]
    congr 1
    by_cases hc : score ws a > b.2
    · rw [if_pos hc]
      exact (Nat.max_eq_right (Nat.le_of_lt hc)).symm
    · rw [if_neg hc]
      exact (Nat.max_eq_left (Nat.le_of_not_lt hc)).symm

/-- The running maximum of scores is invariant under permuting the
iteration order. -/
lemma foldl_max_perm (ws : List (List Char)) {o1 o2 : List String} (hp : o1.Perm o2) :
    ∀ n : Nat, o1.foldl (fun n lang => max n (score ws lang)) n
      = o2.foldl (fun n lang => max n (score ws lang)) n := by
  induction hp with
  | nil => intro n; rfl
  | cons x _ ih =>
    intro n
    simp only [List.foldl_cons]
    exact ih _
  | swap x y l =>
    intro n
    simp only [List.foldl_cons]
    rw [Nat.max_right_comm]
  | trans _ _ ih1 ih2 =>
    intro n
    rw [ih1, ih2]

lemma findBest_snd_perm {o1 o2 : List String} (hp : o1.Perm o2) (ws : List (List Char)) :
    (findBest o1 ws).2 = (findBest o2 ws).2 := by
  unfold findBest
  rw [foldl_findBest_snd, foldl_findBest_snd, foldl_max_perm ws hp]

/-- The find-best fold does not move when no score beats the running best. -/
lemma foldl_findBest_stay (ws : List (List Char)) :
    ∀ (order : List String) (b : String × Nat),
      (∀ l ∈ order, ¬ (score ws l > b.2)) →
      order.foldl (fun b lang => if score ws lang > b.2 then (lang, score ws lang) else b) b = b := by
  intro order
  induction order with
  | nil => intro b _; rfl
  | cons a t ih =>
    intro b h
    simp only [List.foldl_cons]
    rw [if_neg (h a (List.mem_cons_self a t))]
    exact ih b (fun l hl => h l (List.mem_cons_of_mem a hl))

/-- When one language strictly dominates every other score and beats the
running best, the find-best fold converges to it from any starting pair
and along any iteration order containing it. -/
lemma foldl_findBest_unique (ws : List (List Char)) (m : String)
    (hlt : ∀ l, l ≠ m → score ws l < score ws m) :
    ∀ (order : List String) (b : String × Nat), m ∈ order → b.2 < score ws m →
      order.foldl (fun b lang => if score ws lang > b.2 then (lang, score ws lang) else b) b
        = (m, score ws m) := by
  intro order
  induction order with
  | nil =>
    intro b hm
    exact absurd hm (List.not_mem_nil m)
  | cons a t ih =>
    intro b hm hb
    simp only [List.foldl_cons]
    by_cases ha : a = m
    · subst ha
      rw [if_pos hb]
      apply foldl_findBest_stay
      intro l _
      by_cases hlm : l = a
      · subst hlm
        exact Nat.lt_irrefl (score ws l)
      · exact Nat.lt_asymm (hlt l hlm)
    · have hm' : m ∈ t := by
        rcases List.mem_cons.mp hm with h | h
        · exact absurd h.symm ha
        · exact h
      by_cases hc : score ws a > b.2
      · rw [if_pos hc]
        exact ih (a, score ws a) hm' (hlt a ha)
      · rw [if_neg hc]
        exact ih b hm' hb

lemma findBest_unique {ws : List (List Char)} {m : String} {order : List String}
    (hm : m ∈ order) (hpos : 0 < score ws m)
    (hlt : ∀ l, l ≠ m → score ws l < score ws m) :
    findBest order ws = (m, score ws m) :=
  foldl_findBest_unique ws m hlt order ("en", 0) hm hpos

lemma findBest_all_zero {ws : List (List Char)} (hz : ∀ l, score ws l = 0)
    (order : List String) : findBest order ws = ("en", 0) := by
  unfold findBest
  apply foldl_findBest_stay
  intro l _
  rw [hz l]
  exact Nat.not_lt_zero 0

/-- Membership in the alternatives list forces a non-best language with
positive score and the clamped confidence value. -/
lemma mem_alternativesOf {order : List String} {ws : List (List Char)}
    {bestLang : String} {totalWords : Nat} {a : String × ℚ}
    (h : a ∈ alternativesOf order ws bestLang totalWords) :
    a.1 ≠ bestLang ∧ 0 < score ws a.1
      ∧ a.2 = clamp1 ((score ws a.1 : ℚ) / (totalWords : ℚ)) := by
  unfold alternativesOf at h
  rw [List.mem_filterMap] at h
  obtain ⟨lang, hmem, hf⟩ := h
  by_cases hc : lang ≠ bestLang ∧ 0 < score ws lang
  · rw [if_pos hc] at hf
    obtain rfl := Option.some.inj hf
    exact ⟨hc.1, hc.2, rfl⟩
  · rw [if_neg hc] at hf
    simp at hf

lemma alternativesOf_all_zero {ws : List (List Char)} (hz : ∀ l, score ws l = 0)
    (order : List String) (bestLang : String) (totalWords : Nat) :
    alternativesOf order ws bestLang totalWords = [] := by
  unfold alternativesOf
  rw [List.filterMap_eq_nil_iff]
  intro lang _
  rw [if_neg]
  rintro ⟨-, hpos⟩
  rw [hz lang] at hpos
  exact Nat.lt_irrefl 0 hpos

/-- A text with at least one word, none of whose languages score, detects
as the hardcoded default en with confidence 0 and no alternatives. -/
lemma detectLanguage_all_zero (order : List String) (text : List Char)
    (h1 : goWords text ≠ []) (hz : ∀ l, score (goWords text) l = 0) :
    detectLanguage order text = ("en", 0, []) := by
  rw [detectLanguage_eq]
  rw [if_neg (by simpa using h1)]
  rw [findBest_all_zero hz order, alternativesOf_all_zero hz order _ _]
  simp [clamp1_zero]

/-- Specialization: no word of the text occurs in any entry of the table. -/
lemma detectLanguage_no_matches (order : List String) (text : List Char)
    (h1 : goWords text ≠ [])
    (h2 : ∀ w ∈ goWords text, ∀ e ∈ languageWords, e.2.count w = 0) :
    detectLanguage order text = ("en", 0, []) :=
  detectLanguage_all_zero order text h1 (score_eq_zero h2)

/-- Lowercasing fixes whitespace characters: the White_Space code points
are disjoint from both lowered ranges. -/
lemma goToLower_space {c : Char} (h : goIsSpace c = true) : goToLower c = c := by
  unfold goIsSpace at h
  rw [decide_eq_true_eq] at h
  unfold goToLower
  rw [if_neg (by omega), if_neg (by omega)]

lemma fieldsAux_all_space (l : List Char) (h : ∀ c ∈ l, goIsSpace c = true) :
    fieldsAux l [] = [] := by
  induction l with
  | nil => rfl
  | cons c rest ih =>
    have hc := h c (List.mem_cons_self c rest)
    simp only [fieldsAux, hc, if_true, ite_true]
    exact ih (fun x hx => h x (List.mem_cons_of_mem c hx))

/-- A whitespace-only text yields no words. -/
lemma goWords_all_space (text : List Char) (h : ∀ c ∈ text, goIsSpace c = true) :
    goWords text = [] := by
  unfold goWords
  apply fieldsAux_all_space
  intro c hc
  rw [List.mem_map] at hc
  obtain ⟨c0, hc0, rfl⟩ := hc
  rw [goToLower_space (h c0 hc0)]
  exact h c0 hc0

/-- The batch fold collects exactly the successful results, in order. -/
lemma batch_foldl (process : Document → Except String DocumentInfo) :
    ∀ (documents : List Document) (acc : List DocumentInfo),
      documents.foldl (fun results doc =>
          match process doc with
          | Except.ok docInfo => results ++ [docInfo]
          | Except.error _ => results) acc
        = acc ++ documents.filterMap (fun d => (process d).toOption) := by
  intro documents
  induction documents with
  | nil =>
    intro acc
    simp
  | cons d t ih =>
    intro acc
    simp only [List.foldl_cons, List.filterMap_cons]
    cases hp : process d with
    | ok info =>
      rw [ih (acc ++ [info])]
      simp [Except.toOption]
    | error e =>
      rw [ih acc]
      simp [Except.toOption]

/-- Dropping at least one element of a filterMap strictly shrinks it. -/
lemma length_filterMap_lt {α β : Type} (f : α → Option β) :
    ∀ l : List α, (∃ a ∈ l, (f a).isNone = true) → (l.filterMap f).length < l.length := by
  intro l
  induction l with
  | nil =>
    rintro ⟨a, ha, -⟩
    exact absurd ha (List.not_mem_nil a)
  | cons x t ih =>
    rintro ⟨a, ha, hfa⟩
    rw [List.filterMap_cons]
    rcases List.mem_cons.mp ha with rfl | hat
    · rw [Option.isNone_iff_eq_none.mp hfa]
      exact Nat.lt_succ_of_le (List.length_filterMap_le f t)
    · cases hfx : f x with
      | none =>
        exact Nat.lt_succ_of_le (List.length_filterMap_le f t)
      | some b =>
        rw [List.length_cons, List.length_cons]
        exact Nat.succ_lt_succ (ih ⟨a, hat, hfa⟩)

/-- Concrete evaluation used by witnesses: on the one-word text a, the
word matches one stop-word of en and one of es; with en first in the
iteration order the primary is en with confidence 1, and es remains as an
alternative with confidence 1. -/
lemma detectLanguage_singleA :
    detectLanguage langCodes singleAText = ("en", 1, [("es", 1)]) := by
  rw [detectLanguage_eq]
  have hw : goWords singleAText = [['a']] := by decide
  rw [hw]
  rw [if_neg (by decide)]
  have hb : findBest langCodes [['a']] = ("en", 1) := by decide
  have hair : alternativesOf langCodes [['a']] "en" 1 = [("es", 1)] := by
    unfold alternativesOf langCodes
    have hen : score [['a']] "en" = 1 := by decide
    have hes : score [['a']] "es" = 1 := by decide
    have hfr : score [['a']] "fr" = 0 := by decide
    have hde : score [['a']] "de" = 0 := by decide
    have hit : score [['a']] "it" = 0 := by decide
    simp only [List.filterMap_cons, List.filterMap_nil, hen, hes, hfr, hde, hit]
    norm_num [clamp1]
    rw [if_neg (by decide)]
  rw [hb]
  dsimp only
  have hlen : [['a']].length = 1 := rfl
  rw [hlen, hair]
  norm_num [clamp1]

/-! ## Claim theorems -/

/-- C1 (counterexample): on the hello-world input the detector does return
en, but with confidence exactly 0, not strictly positive — the tokens keep
their punctuation and match no stop-word. This refutes the claimed
confidence strictly greater than 0. -/
theorem c1_hello_world_counterexample :
    (detectLanguage langCodes helloWorldText).1 = "en" ∧
    ¬ (0 < (detectLanguage langCodes helloWorldText).2.1) := by
  have h := detectLanguage_no_matches langCodes helloWorldText (by decide) (by decide)
  rw [h]
  exact ⟨rfl, by norm_num⟩

/-- C1 (amended): for the hello-world input, under every iteration order,
the reference detector returns language code en with confidence exactly
0.0 and no alternatives, because the punctuation-attached tokens match no
stop-word of any language. -/
theorem c1_hello_world_en_confidence_zero (order : List String) :
    detectLanguage order helloWorldText = ("en", 0, []) :=
  detectLanguage_no_matches order helloWorldText (by decide) (by decide)

/-- C2 (counterexample): detection is not a pure function of the text
alone — on a text whose en and es scores tie, two iteration orders of the
score map (both permutations of the key set, as produced by the
randomized Go map iteration) yield different primary language codes. -/
theorem c2_tie_order_dependent :
    List.Perm langCodes esFirstOrder ∧
    (detectLanguage langCodes theElText).1 = "en" ∧
    (detectLanguage esFirstOrder theElText).1 = "es" :=
  ⟨by decide, by decide, by decide⟩

/-- C2 (amended): issuing the identical request twice yields the same
confidence whatever the two map-iteration orders are; the language code
also agrees whenever one language strictly dominates every other score,
and can differ only on ties. -/
theorem c2_confidence_deterministic (text : List Char) (o1 o2 : List String)
    (hp : o1.Perm o2) :
    (detectLanguage o1 text).2.1 = (detectLanguage o2 text).2.1 ∧
    (∀ m, 0 < score (goWords text) m →
      (∀ l, l ≠ m → score (goWords text) l < score (goWords text) m) →
      m ∈ o1 → (detectLanguage o1 text).1 = (detectLanguage o2 text).1) := by
  constructor
  · rw [detectLanguage_eq, detectLanguage_eq]
    by_cases h0 : (goWords text).length = 0
    · rw [if_pos h0, if_pos h0]
    · rw [if_neg h0, if_neg h0]
      dsimp only
      rw [findBest_snd_perm hp]
  · intro m hpos hlt hm1
    rw [detectLanguage_eq, detectLanguage_eq]
    by_cases h0 : (goWords text).length = 0
    · rw [if_pos h0, if_pos h0]
    · rw [if_neg h0, if_neg h0]
      dsimp only
      rw [findBest_unique hm1 hpos hlt, findBest_unique (hp.mem_iff.mp hm1) hpos hlt]

/-- C2 (witness): the permutation hypothesis holds for the two concrete
orders, and the theorem yields equal confidences on the tied text. -/
theorem c2_confidence_deterministic_witness :
    List.Perm langCodes esFirstOrder ∧
    (detectLanguage langCodes theElText).2.1
      = (detectLanguage esFirstOrder theElText).2.1 := by
  have hp : List.Perm langCodes esFirstOrder := by decide
  exact ⟨hp, (c2_confidence_deterministic theElText langCodes esFirstOrder hp).1⟩

/-- C3: any whitespace-only input (the empty text included) yields no
words, and the detector returns the sentinel unknown with confidence 0.0
and an empty alternatives list. -/
theorem c3_whitespace_only_unknown (order : List String) (text : List Char)
    (h : ∀ c ∈ text, goIsSpace c = true) :
    detectLanguage order text = ("unknown", 0, []) := by
  rw [detectLanguage_eq, goWords_all_space text h,
    if_pos (show ([] : List (List Char)).length = 0 from rfl)]

/-- C3 (witness): instantiation at a concrete whitespace-only text. -/
theorem c3_whitespace_only_unknown_witness :
    (∀ c ∈ wsOnlyText, goIsSpace c = true) ∧
    detectLanguage langCodes wsOnlyText = ("unknown", 0, []) :=
  ⟨by decide, c3_whitespace_only_unknown langCodes wsOnlyText (by decide)⟩

/-- C4: for every request and iteration order, the response confidence and
every alternative confidence lie in the closed interval from 0 to 1; the
clamp keeps scores exceeding the word count (possible through the
duplicated stop-word) inside the range rather than failing. -/
theorem c4_confidence_in_unit_interval (order : List String) (text : List Char) :
    (0 ≤ (detectLanguage order text).2.1 ∧ (detectLanguage order text).2.1 ≤ 1) ∧
    (∀ a ∈ (detectLanguage order text).2.2, 0 ≤ a.2 ∧ a.2 ≤ 1) := by
  rw [detectLanguage_eq]
  by_cases h0 : (goWords text).length = 0
  · rw [if_pos h0]
    dsimp only
    exact ⟨⟨le_refl 0, zero_le_one⟩, fun a ha => absurd ha (List.not_mem_nil a)⟩
  · rw [if_neg h0]
    dsimp only
    refine ⟨⟨clamp1_nonneg (div_nonneg (Nat.cast_nonneg _) (Nat.cast_nonneg _)),
      clamp1_le_one _⟩, ?_⟩
    intro a ha
    obtain ⟨-, -, h2⟩ := mem_alternativesOf ha
    rw [h2]
    exact ⟨clamp1_nonneg (div_nonneg (Nat.cast_nonneg _) (Nat.cast_nonneg _)),
      clamp1_le_one _⟩

/-- C4 (witness): a concrete alternative of a concrete response, whose
confidence the theorem brackets into the unit interval. -/
theorem c4_confidence_in_unit_interval_witness :
    (("es", (1 : ℚ)) ∈ (detectLanguage langCodes singleAText).2.2) ∧
    (0 ≤ ("es", (1 : ℚ)).2 ∧ ("es", (1 : ℚ)).2 ≤ 1) := by
  have hm : ("es", (1 : ℚ)) ∈ (detectLanguage langCodes singleAText).2.2 := by
    rw [detectLanguage_singleA]
    simp
  exact ⟨hm, (c4_confidence_in_unit_interval langCodes singleAText).2 _ hm⟩

/-- C5: no entry of the alternatives list carries the same language code
as the primary language code of the response. -/
theorem c5_alternatives_exclude_primary (order : List String) (text : List Char) :
    ∀ a ∈ (detectLanguage order text).2.2, a.1 ≠ (detectLanguage order text).1 := by
  rw [detectLanguage_eq]
  by_cases h0 : (goWords text).length = 0
  · rw [if_pos h0]
    intro a ha
    exact absurd ha (List.not_mem_nil a)
  · rw [if_neg h0]
    dsimp only
    intro a ha
    exact (mem_alternativesOf ha).1

/-- C5 (witness): a concrete response with a nonempty alternatives list,
whose single alternative differs from the primary code. -/
theorem c5_alternatives_exclude_primary_witness :
    (("es", (1 : ℚ)) ∈ (detectLanguage langCodes singleAText).2.2) ∧
    ("es", (1 : ℚ)).1 ≠ (detectLanguage langCodes singleAText).1 := by
  have hm : ("es", (1 : ℚ)) ∈ (detectLanguage langCodes singleAText).2.2 := by
    rw [detectLanguage_singleA]
    simp
  exact ⟨hm, c5_alternatives_exclude_primary langCodes singleAText _ hm⟩

/-- C6: the primary language code is never the empty string — it is the
sentinel unknown or one of the five recognized codes. -/
theorem c6_language_code_recognized_or_unknown (order : List String) (text : List Char) :
    (detectLanguage order text).1 ≠ "" ∧
    ((detectLanguage order text).1 = "unknown" ∨ (detectLanguage order text).1 ∈ langCodes) := by
  have hcodes : ∀ l ∈ langCodes, l ≠ "" := by decide
  rw [detectLanguage_eq]
  by_cases h0 : (goWords text).length = 0
  · rw [if_pos h0]
    exact ⟨by decide, Or.inl rfl⟩
  · rw [if_neg h0]
    dsimp only
    rcases findBest_fst_cases order (goWords text) with h | h
    · rw [h]
      have hen : "en" ∈ langCodes := by decide
      exact ⟨hcodes _ hen, Or.inr hen⟩
    · have hmem := mem_langCodes_of_score_pos h
      exact ⟨hcodes _ hmem, Or.inr hmem⟩

/-- C7: the handler copies the request document id into the response
unchanged, whatever the text, the timing and the iteration order — the
empty document id included. -/
theorem c7_document_id_echoed (order : List String) (procMs : Int)
    (req : DetectLanguageRequest) :
    ((serverDetectLanguage order procMs req).1.map DetectLanguageResponse.documentId)
      = some req.documentId := rfl

/-- C8: batch processing returns a nil error together with exactly the
successful per-item results in input order; failed items are omitted, so
any failure is observable as a result count strictly below the input
count. -/
theorem c8_batch_collects_successes (process : Document → Except String DocumentInfo)
    (documents : List Document) :
    (batchProcessDocuments process documents).2 = none ∧
    (batchProcessDocuments process documents).1
      = documents.filterMap (fun d => (process d).toOption) ∧
    ((∃ d ∈ documents, ((process d).toOption).isNone = true) →
      (batchProcessDocuments process documents).1.length < documents.length) := by
  have h1 : (batchProcessDocuments process documents).1
      = documents.filterMap (fun d => (process d).toOption) := by
    unfold batchProcessDocuments
    dsimp only
    rw [batch_foldl process documents []]
    simp
  refine ⟨rfl, h1, ?_⟩
  intro hex
  rw [h1]
  exact length_filterMap_lt _ documents hex

/-- C8 (witness): a batch of four documents of which one fails; three
results come back and the count mismatch is observable. -/
theorem c8_batch_collects_successes_witness :
    (∃ d ∈ exDocs, ((exProcess d).toOption).isNone = true) ∧
    (batchProcessDocuments exProcess exDocs).1.length < exDocs.length := by
  have hex : ∃ d ∈ exDocs, ((exProcess d).toOption).isNone = true := by decide
  exact ⟨hex, (c8_batch_collects_successes exProcess exDocs).2.2 hex⟩

/-- C9: the handler returns a non-nil response together with a nil error
on every request; uncertainty never surfaces as an error. -/
theorem c9_handler_never_errors (order : List String) (procMs : Int)
    (req : DetectLanguageRequest) :
    (serverDetectLanguage order procMs req).2 = none ∧
    (serverDetectLanguage order procMs req).1 ≠ none :=
  ⟨rfl, Option.some_ne_none _⟩

/-- C10: a text with at least one word but no stop-word match in any
language detects as the hardcoded default en with confidence 0 and no
alternatives; and the sentinel unknown appears exactly when the text has
no words at all. -/
theorem c10_default_en_and_unknown_iff_no_words (order : List String) (text : List Char) :
    ((goWords text ≠ [] → (∀ l ∈ langCodes, score (goWords text) l = 0) →
      detectLanguage order text = ("en", 0, []))) ∧
    ((detectLanguage order text).1 = "unknown" ↔ goWords text = []) := by
  constructor
  · intro h1 h2
    apply detectLanguage_all_zero order text h1
    intro l
    by_cases hm : l ∈ langCodes
    · exact h2 l hm
    · exact score_eq_zero_of_not_mem hm _
  · constructor
    · intro h
      by_contra hne
      rw [detectLanguage_eq] at h
      rw [if_neg (by simpa using hne)] at h
      dsimp only at h
      rcases findBest_fst_cases order (goWords text) with hc | hc
      · rw [hc] at h
        exact absurd h (by decide)
      · have hmem := mem_langCodes_of_score_pos hc
        rw [h] at hmem
        exact absurd hmem (by decide)
    · intro h
      rw [detectLanguage_eq, h,
        if_pos (show ([] : List (List Char)).length = 0 from rfl)]

/-- C10 (witness): a concrete two-word text with no stop-word match. -/
theorem c10_default_en_witness :
    (goWords noMatchText ≠ []) ∧ (∀ l ∈ langCodes, score (goWords noMatchText) l = 0) ∧
    detectLanguage langCodes noMatchText = ("en", 0, []) :=
  ⟨by decide, by decide,
    (c10_default_en_and_unknown_iff_no_words langCodes noMatchText).1 (by decide) (by decide)⟩

end LdProto
